import Mathlib

/-!
Verification development for the `callTranscriptPlayer` Lightning Web
Component of the ujet-sf-call-tool repository.

The component (file `callTranscriptPlayer.js`) synchronizes audio playback
with a parsed transcript.  This file gives a shallow embedding of its data
model and of the methods the specification talks about:

* `processDocuments`, `selectRecording`, `loadTranscript` (modelled as a
  fetch dispatch plus a separate resolution step, mirroring the `await`
  suspension point), the `documents` setter (`setDocuments`),
* `extractStartTime`, `getSpeakerClass`, `getEntryClass`,
  `formatTimeFromSeconds`,
* `updateActiveEntry` with its linear boundary scan, and the two seek
  handlers `handleProgressClick` and `handleTranscriptClick`.

JavaScript numbers are modelled as rationals (only order, `+`, `-`, `*`,
`/`, `min`, `max` and `Math.floor` occur in the translated code), strings
as Lean `String`.  Fields of the component that no modelled method reads or
writes (`sessionId`, `audioUrl`, `playbackSpeed`, the DOM handles) are
omitted from the state; the `audioElement` reference is abstracted to the
boolean `audioPresent`, and the asynchronous Apex collaborators
`getTranscriptContent` / `parseTranscript` are abstracted to a `FetchEnv`
environment, as they are server-side collaborators mocked in the
repository tests.
-/

namespace CallTranscriptPlayer

/-- One document record as delivered to the component
(`documentId`, `title`, `fileType`, `downloadUrl`). -/
structure Document where
  documentId : String
  title : String
  fileType : String
  downloadUrl : String
deriving Repr, DecidableEq

/-- A transcript entry as returned by the external `parseTranscript` Apex
call: `{timestamp, seconds, speaker, text, entryIndex}`. -/
structure ParsedEntry where
  timestamp : String
  seconds : ℚ
  speaker : String
  text : String
  entryIndex : ℕ
deriving Repr, DecidableEq

/-- A display transcript entry, i.e. a parsed entry spread together with the
derived fields `displayTime`, `entryClass` and `speakerClass` (this is what
`loadTranscript` stores into `this.transcriptEntries`). -/
structure TranscriptEntry where
  timestamp : String
  seconds : ℚ
  speaker : String
  text : String
  entryIndex : ℕ
  displayTime : String
  entryClass : String
  speakerClass : String
deriving Repr, DecidableEq

/-- One element of `this.recordings` as built by `processDocuments`. -/
structure Recording where
  id : String
  audioUrl : String
  audioTitle : String
  type : String
  label : String
  icon : String
  transcriptDoc : Option Document
  durationDisplay : String
  isActive : Bool
  pillClass : String
deriving Repr, DecidableEq

/-- The reactive state of the component (the tracked fields the modelled
methods read or write, plus `_documents` / `_documentsProcessed` backing
the `documents` setter). -/
structure PlayerState where
  documents : List Document
  documentsProcessed : Bool
  recordings : List Recording
  selectedRecordingId : Option String
  transcriptEntries : List TranscriptEntry
  isLoadingTranscript : Bool
  isLoadingRecordings : Bool
  currentTime : ℚ
  duration : ℚ
  isPlaying : Bool
  autoScroll : Bool
  currentEntryIndex : ℤ
  recordingStartTime : String
  audioPresent : Bool
deriving Repr, DecidableEq

/-! ### JavaScript string primitives

The component uses `String.prototype.toLowerCase`, `toUpperCase`,
`startsWith` and `includes` on ASCII file names and speaker labels.  They
are modelled by structurally recursive functions on the character list so
that every definition evaluates inside the kernel. -/

/-- Model of `String.prototype.toLowerCase` (the strings classified by the
component are ASCII, where `Char.toLower` agrees with JavaScript). -/
def jsToLower (s : String) : String :=
  String.mk (s.data.map Char.toLower)

/-- Model of `String.prototype.toUpperCase` on ASCII strings. -/
def jsToUpper (s : String) : String :=
  String.mk (s.data.map Char.toUpper)

/-- `charsStartWith pat l` is true when `pat` is an initial segment of `l`. -/
def charsStartWith : List Char → List Char → Bool
  | [], _ => true
  | _ :: _, [] => false
  | p :: ps, c :: cs => p == c && charsStartWith ps cs

/-- `charsContain pat l` is true when `pat` occurs contiguously in `l`
(at any position, like JavaScript `includes`). -/
def charsContain (pat : List Char) : List Char → Bool
  | [] => charsStartWith pat []
  | c :: rest => charsStartWith pat (c :: rest) || charsContain pat rest

/-- Model of `s.includes(sub)`. -/
def jsIncludes (s sub : String) : Bool :=
  charsContain sub.data s.data

/-- Model of `s.startsWith(pat)`. -/
def jsStartsWith (s pat : String) : Bool :=
  charsStartWith pat.data s.data

/-! ### Pure helper methods of the component -/

/-- `extractStartTime` matches `content` against the regular expression
`\[(\d{2}:\d{2}:\d{2})/` and returns the first captured group, defaulting
to `"00:00:00"`.  `tsMatchAt l` decides whether the pattern matches at the
head of `l` and returns the captured timestamp. -/
def tsMatchAt : List Char → Option (List Char)
  | '[' :: h1 :: h2 :: c1 :: m1 :: m2 :: c2 :: s1 :: s2 :: _ =>
    if h1.isDigit && h2.isDigit && c1 == ':' && m1.isDigit && m2.isDigit
        && c2 == ':' && s1.isDigit && s2.isDigit then
      some [h1, h2, c1, m1, m2, c2, s1, s2]
    else
      none
  | _ => none

/-- Leftmost-match scan of the regular expression engine: try the pattern at
every position, left to right. -/
def scanStartTime : List Char → Option (List Char)
  | [] => none
  | c :: rest =>
    match tsMatchAt (c :: rest) with
    | some ts => some ts
    | none => scanStartTime rest

/-- Source: `extractStartTime(content)` returns
`content.match(/\[(\d{2}:\d{2}:\d{2})/)` captured group 1, or `"00:00:00"`
when there is no match. -/
def extractStartTime (content : String) : String :=
  match scanStartTime content.data with
  | some ts => String.mk ts
  | none => "00:00:00"

/-- JavaScript truncation toward zero (`Math.trunc`, the rounding used by
the `%` operator). -/
def jsTrunc (q : ℚ) : ℤ :=
  if q < 0 then -Int.floor (-q) else Int.floor q

/-- JavaScript remainder `a % b` (truncated division remainder). -/
def jsFmod (a b : ℚ) : ℚ :=
  a - b * (jsTrunc (a / b) : ℚ)

/-- JavaScript `String.prototype.padStart(2, "0")` for the seconds field. -/
def padTwoZero (s : String) : String :=
  if s.length < 2 then "0" ++ s else s

/-- Source: `formatTimeFromSeconds(totalSeconds)` returns `"0:00"` for
null, undefined or negative input, else `MM:SS` with
`mins = Math.floor(totalSeconds / 60)` and
`secs = Math.floor(totalSeconds % 60)`. -/
def formatTimeFromSeconds (totalSeconds : ℚ) : String :=
  if totalSeconds < 0 then "0:00"
  else
    let mins := (Int.floor (totalSeconds / 60)).toNat
    let secs := (Int.floor (jsFmod totalSeconds 60)).toNat
    toString mins ++ ":" ++ padTwoZero (toString secs)

/-- Source: `getEntryClass(index, isActive)` returns `"transcript-entry"`,
with `" active-entry"` appended when active (the index parameter is unused
in the source as well). -/
def getEntryClass (_index : ℕ) (isActive : Bool) : String :=
  if isActive then "transcript-entry active-entry" else "transcript-entry"

/-- Source: `getSpeakerClass(speaker)` lower-cases the label and tests
substring membership: virtual agent or bot, then customer or caller, else
the agent default. -/
def getSpeakerClass (speaker : String) : String :=
  let speakerLower := jsToLower speaker
  if jsIncludes speakerLower "virtual agent" || jsIncludes speakerLower "bot" then
    "entry-speaker speaker-bot"
  else if jsIncludes speakerLower "customer" || jsIncludes speakerLower "caller" then
    "entry-speaker speaker-customer"
  else
    "entry-speaker speaker-agent"

/-! ### The active-entry boundary scan (`updateActiveEntry`) -/

/-- The loop condition upper bound: `nextSeconds = nextEntry ? nextEntry.seconds
: Infinity`, so the comparison `currentTime < nextSeconds` is vacuously true
on the last entry. -/
def headBoundOk (t : ℚ) : List TranscriptEntry → Bool
  | [] => true
  | e2 :: _ => decide (t < e2.seconds)

/-- The `for` loop of `updateActiveEntry`: starting at position `k`, return
the first index `i` with `currentTime >= entries[i].seconds` and
`currentTime < entries[i+1].seconds` (`Infinity` past the end), or `-1`. -/
def findActiveIndex (t : ℚ) : List TranscriptEntry → ℕ → ℤ
  | [], _ => -1
  | e :: rest, k =>
    if e.seconds ≤ t ∧ headBoundOk t rest = true then (k : ℤ)
    else findActiveIndex t rest (k + 1)

/-- `newActiveIndex` as computed by the loop in `updateActiveEntry`. -/
def computeActiveIndex (entries : List TranscriptEntry) (t : ℚ) : ℤ :=
  findActiveIndex t entries 0

/-- Source: `updateActiveEntry()` — early return on an empty entry list;
otherwise compute `newActiveIndex`; only when it differs from the stored
`currentEntryIndex`, store it, re-map every entry through `getEntryClass`,
and (when `autoScroll` is on and the index is non-negative) call
`scrollToEntry`.  The boolean result records whether `scrollToEntry` was
invoked. -/
def updateActiveEntry (s : PlayerState) : PlayerState × Bool :=
  if s.transcriptEntries.isEmpty then (s, false)
  else
    let newActiveIndex := computeActiveIndex s.transcriptEntries s.currentTime
    if newActiveIndex = s.currentEntryIndex then (s, false)
    else
      let newEntries := s.transcriptEntries.enum.map fun p =>
        { p.2 with entryClass := getEntryClass p.2.entryIndex (decide ((p.1 : ℤ) = newActiveIndex)) }
      ({ s with currentEntryIndex := newActiveIndex, transcriptEntries := newEntries },
       s.autoScroll && decide (0 ≤ newActiveIndex))

/-! ### Seek handlers -/

/-- Source: `handleProgressClick(event)` computes
`clickPosition = (event.clientX - rect.left) / rect.width`,
`newTime = clickPosition * this.duration`, and assigns
`Math.max(0, Math.min(this.duration, newTime))` to the audio element.
The returned rational is the value written to `audioElement.currentTime`. -/
def handleProgressClick (duration clientX rectLeft rectWidth : ℚ) : ℚ :=
  let clickPosition := (clientX - rectLeft) / rectWidth
  let newTime := clickPosition * duration
  max 0 (min duration newTime)

/-- Source: `handleTranscriptClick(event)` parses `dataset.seconds`
(`none` models `NaN`), and when the audio element exists and the value is a
number, assigns it unchanged to `audioElement.currentTime` and starts
playback when paused.  The second component is the value written to
`audioElement.currentTime` (`none` when nothing is written). -/
def handleTranscriptClick (s : PlayerState) (datasetSeconds : Option ℚ) :
    PlayerState × Option ℚ :=
  match datasetSeconds with
  | none => (s, none)
  | some seconds =>
    if s.audioPresent then
      (if s.isPlaying then s else { s with isPlaying := true }, some seconds)
    else (s, none)

/-! ### Document processing and recording selection -/

/-- The audio-file filter of `processDocuments`:
`fileType.toUpperCase()` equal to MP3, WAV or M4A. -/
def isAudioRecordingDoc (doc : Document) : Bool :=
  let ft := jsToUpper doc.fileType
  ft == "MP3" || ft == "WAV" || ft == "M4A"

/-- The `for (const doc of allDocs)` loop of `processDocuments` that finds
the `va_` and `rt_` transcripts; later matches overwrite earlier ones, and
the `rt` test sits in an `else if`. -/
def scanTranscripts : List Document → Option Document → Option Document →
    Option Document × Option Document
  | [], va, rt => (va, rt)
  | doc :: rest, va, rt =>
    let title := jsToLower doc.title
    if jsStartsWith title "va_" || jsIncludes title "va_transcript" then
      scanTranscripts rest (some doc) rt
    else if jsStartsWith title "rt_" || jsIncludes title "rt_transcript" then
      scanTranscripts rest va (some doc)
    else
      scanTranscripts rest va rt

/-- The body of the `audioFiles.map` inside `processDocuments`: a title
containing `"_2"` becomes the agent recording paired with the `rt_`
transcript, every other audio file is paired with the `va_` transcript
(and labelled Virtual Agent only when that transcript exists). -/
def buildRecording (vaTranscript rtTranscript : Option Document)
    (audioDoc : Document) : Recording :=
  let audioTitle := jsToLower audioDoc.title
  if jsIncludes audioTitle "_2" then
    { id := audioDoc.documentId, audioUrl := audioDoc.downloadUrl,
      audioTitle := audioDoc.title, type := "agent", label := "Agent Call",
      icon := "👤", transcriptDoc := rtTranscript, durationDisplay := "--:--",
      isActive := false, pillClass := "recording-pill" }
  else
    match vaTranscript with
    | some _ =>
      { id := audioDoc.documentId, audioUrl := audioDoc.downloadUrl,
        audioTitle := audioDoc.title, type := "virtual_agent",
        label := "Virtual Agent", icon := "🤖", transcriptDoc := vaTranscript,
        durationDisplay := "--:--", isActive := false, pillClass := "recording-pill" }
    | none =>
      { id := audioDoc.documentId, audioUrl := audioDoc.downloadUrl,
        audioTitle := audioDoc.title, type := "call", label := "Recording",
        icon := "🎙️", transcriptDoc := none, durationDisplay := "--:--",
        isActive := false, pillClass := "recording-pill" }

/-- The unsorted recordings array: audio files filtered out of the document
list, each mapped through `buildRecording` with the two scanned
transcripts. -/
def buildRecordings (docs : List Document) : List Recording :=
  let scanned := scanTranscripts docs none none
  (docs.filter isAudioRecordingDoc).map (buildRecording scanned.1 scanned.2)

/-- The sort key: `order = { virtual_agent: 0, agent: 1, call: 2 }`. -/
def typeOrder (t : String) : ℕ :=
  if t = "virtual_agent" then 0 else if t = "agent" then 1 else 2

/-- Stable insertion used to model `Array.prototype.sort` (stable per the
ECMAScript specification) with comparator
`order[a.type] - order[b.type]`: an element is inserted after every
already-placed element whose key is less than or equal to its own. -/
def insertRecordingSorted (rec : Recording) : List Recording → List Recording
  | [] => [rec]
  | r :: rest =>
    if typeOrder rec.type < typeOrder r.type then rec :: r :: rest
    else r :: insertRecordingSorted rec rest

/-- Stable sort of the recordings by `typeOrder`. -/
def sortRecordings (recs : List Recording) : List Recording :=
  recs.foldl (fun acc rec => insertRecordingSorted rec acc) []

/-- The label renumbering applied when more than one recording exists:
`label` becomes `"<idx + 1>. <label>"`. -/
def renumberRecordings (recs : List Recording) : List Recording :=
  recs.enum.map fun p => { p.2 with label := toString (p.1 + 1) ++ ". " ++ p.2.label }

/-- Source: `selectRecording(recordingId)` — pause playback, store the
selection, reset `currentTime`, `duration`, `currentEntryIndex` and
`transcriptEntries`, refresh the pill classes, then either dispatch
`loadTranscript` for the matched transcript document (whose synchronous
prefix sets `isLoadingTranscript = true`; the returned option is the
document id of the dispatched fetch) or clear the loading flag. -/
def selectRecording (s : PlayerState) (recordingId : String) :
    PlayerState × Option String :=
  let s0 := if s.audioPresent && s.isPlaying then { s with isPlaying := false } else s
  let recs := s0.recordings.map fun rec =>
    { rec with isActive := decide (rec.id = recordingId),
               pillClass := if rec.id = recordingId then "recording-pill active"
                            else "recording-pill" }
  let s1 := { s0 with selectedRecordingId := some recordingId, currentTime := 0,
                      duration := 0, currentEntryIndex := -1,
                      transcriptEntries := [], recordings := recs }
  match recs.find? (fun r => r.id == recordingId) with
  | some rec =>
    match rec.transcriptDoc with
    | some doc => ({ s1 with isLoadingTranscript := true }, some doc.documentId)
    | none => ({ s1 with isLoadingTranscript := false }, none)
  | none => ({ s1 with isLoadingTranscript := false }, none)

/-- Source: `processDocuments()` — on an empty document list just clear the
loading flags; otherwise build, sort and (when several) renumber the
recordings, mark them loaded, and auto-select the first recording (which
may dispatch a transcript fetch, returned as the option). -/
def processDocuments (s : PlayerState) : PlayerState × Option String :=
  if s.documents.isEmpty then
    ({ s with isLoadingRecordings := false, isLoadingTranscript := false }, none)
  else
    let recsSorted := sortRecordings (buildRecordings s.documents)
    let recs := if 1 < recsSorted.length then renumberRecordings recsSorted else recsSorted
    let s1 := { s with recordings := recs, isLoadingRecordings := false }
    match recs with
    | [] => ({ s1 with isLoadingTranscript := false }, none)
    | r0 :: _ => selectRecording s1 r0.id

/-- Source: the `documents` setter — `this._documents = value || []`, then
`processDocuments` runs only when `_documentsProcessed` is still false (and
the flag is set before processing). -/
def setDocuments (s : PlayerState) (value : Option (List Document)) :
    PlayerState × Option String :=
  let s1 := { s with documents := value.getD [] }
  if s1.documentsProcessed then (s1, none)
  else processDocuments { s1 with documentsProcessed := true }

/-! ### The asynchronous transcript load -/

/-- The external collaborators of `loadTranscript`: `getTranscriptContent`
(`none` models a rejected promise) and `parseTranscript`. -/
structure FetchEnv where
  fetch : String → Option String
  parse : String → String → List ParsedEntry

/-- The spread `{...entry, displayTime, entryClass, speakerClass}` applied
to each parsed entry inside `loadTranscript`. -/
def displayEntry (entry : ParsedEntry) : TranscriptEntry :=
  { timestamp := entry.timestamp, seconds := entry.seconds,
    speaker := entry.speaker, text := entry.text, entryIndex := entry.entryIndex,
    displayTime := formatTimeFromSeconds entry.seconds,
    entryClass := getEntryClass entry.entryIndex false,
    speakerClass := getSpeakerClass entry.speaker }

/-- The continuation of `loadTranscript(documentId)` after its `await`s
resolve, run against the then-current state: on rejection the entries are
cleared; on falsy (empty) content nothing but the loading flag changes;
otherwise the start time is extracted and the parsed entries are stored —
with no check that `documentId` still belongs to the selected recording. -/
def resolveTranscriptFetch (env : FetchEnv) (s : PlayerState)
    (documentId : String) : PlayerState :=
  match env.fetch documentId with
  | some content =>
    if content = "" then { s with isLoadingTranscript := false }
    else
      let startTime := extractStartTime content
      { s with recordingStartTime := startTime,
               transcriptEntries := (env.parse content startTime).map displayEntry,
               isLoadingTranscript := false }
  | none => { s with transcriptEntries := [], isLoadingTranscript := false }

/-- External events of the single-threaded event loop relevant to the
stale-fetch analysis: a recording selection and the completion of an
outstanding transcript fetch. -/
inductive PlayerEvent
  | select (recordingId : String)
  | resolve (documentId : String)
deriving Repr, DecidableEq

/-- Component state plus the multiset of in-flight transcript fetches. -/
structure SystemState where
  player : PlayerState
  pending : List String
deriving Repr, DecidableEq

/-- One step of the event loop: a selection dispatches at most one fetch; a
completion of an outstanding fetch runs the `loadTranscript` continuation
unconditionally. -/
def stepEvent (env : FetchEnv) (sys : SystemState) : PlayerEvent → SystemState
  | PlayerEvent.select recordingId =>
    let res := selectRecording sys.player recordingId
    { player := res.1, pending := sys.pending ++ res.2.toList }
  | PlayerEvent.resolve documentId =>
    if documentId ∈ sys.pending then
      { player := resolveTranscriptFetch env sys.player documentId,
        pending := sys.pending.erase documentId }
    else sys

/-- Run a sequence of events. -/
def runEvents (env : FetchEnv) : SystemState → List PlayerEvent → SystemState
  | sys, [] => sys
  | sys, e :: rest => runEvents env (stepEvent env sys e) rest

/-! ### Demonstration data (Scenario 1 entries, Scenario 4 documents) -/

/-- The first Scenario 1 entry: seconds offset 0. -/
def demoEntryA : TranscriptEntry :=
  ⟨"10:00:00", 0, "Agent", "Hi", 0, "0:00", "transcript-entry",
   "entry-speaker speaker-agent"⟩

/-- The second Scenario 1 entry: seconds offset 10. -/
def demoEntryB : TranscriptEntry :=
  ⟨"10:00:10", 10, "Customer", "Hello", 1, "0:10", "transcript-entry",
   "entry-speaker speaker-customer"⟩

/-- Scenario 1 entry list with seconds `[0, 10]`. -/
def demoEntries : List TranscriptEntry := [demoEntryA, demoEntryB]

/-- A player state holding the Scenario 1 entries at playback time `t`. -/
def demoPlayerAt (t : ℚ) : PlayerState :=
  ⟨[], true, [], none, demoEntries, false, false, t, 60, false, true, -1,
   "10:00:00", true⟩

/-! ### Properties of the boundary scan -/

/-- The seconds value of entry `i` (0 outside the list; every use is guarded
by a bound on `i`). -/
def secOf (l : List TranscriptEntry) (i : ℕ) : ℚ :=
  (l.map fun e => e.seconds).getD i 0

/-- The loop condition of `updateActiveEntry` at position `i`:
`entries[i].seconds <= t` and `t < entries[i+1].seconds`, the upper bound
being `Infinity` for the last entry. -/
def entryMatches (l : List TranscriptEntry) (t : ℚ) (i : ℕ) : Prop :=
  i < l.length ∧ secOf l i ≤ t ∧ (i + 1 < l.length → t < secOf l (i + 1))

lemma secOf_zero (e : TranscriptEntry) (rest : List TranscriptEntry) :
    secOf (e :: rest) 0 = e.seconds := rfl

lemma secOf_succ (e : TranscriptEntry) (rest : List TranscriptEntry) (i : ℕ) :
    secOf (e :: rest) (i + 1) = secOf rest i := rfl

lemma matches_cons_zero (e : TranscriptEntry) (rest : List TranscriptEntry) (t : ℚ) :
    entryMatches (e :: rest) t 0 ↔ (e.seconds ≤ t ∧ headBoundOk t rest = true) := by
  cases rest with
  | nil => simp [entryMatches, headBoundOk, secOf_zero]
  | cons e2 rs =>
    simp [entryMatches, headBoundOk, secOf_zero, secOf_succ, Nat.succ_lt_succ_iff]

lemma matches_cons_succ (e : TranscriptEntry) (rest : List TranscriptEntry)
    (t : ℚ) (i : ℕ) :
    entryMatches (e :: rest) t (i + 1) ↔ entryMatches rest t i := by
  simp [entryMatches, secOf_succ, Nat.succ_lt_succ_iff]

lemma findActiveIndex_cons (t : ℚ) (e : TranscriptEntry)
    (rest : List TranscriptEntry) (k : ℕ) :
    findActiveIndex t (e :: rest) k =
      if e.seconds ≤ t ∧ headBoundOk t rest = true then (k : ℤ)
      else findActiveIndex t rest (k + 1) := rfl

lemma findActiveIndex_of_first_match (t : ℚ) :
    ∀ (l : List TranscriptEntry) (k i : ℕ), entryMatches l t i →
      (∀ j, j < i → ¬ entryMatches l t j) →
      findActiveIndex t l k = (k : ℤ) + i := by
  intro l
  induction l with
  | nil =>
    intro k i hm _
    exact absurd hm.1 (by simp)
  | cons e rest ih =>
    intro k i hm hfirst
    cases i with
    | zero =>
      have hc := (matches_cons_zero e rest t).mp hm
      rw [findActiveIndex_cons, if_pos hc]
      simp
    | succ i =>
      have h0 : ¬ entryMatches (e :: rest) t 0 := hfirst 0 (Nat.succ_pos i)
      have hcond : ¬ (e.seconds ≤ t ∧ headBoundOk t rest = true) := fun hc =>
        h0 ((matches_cons_zero e rest t).mpr hc)
      rw [findActiveIndex_cons, if_neg hcond]
      have hrec := ih (k + 1) i ((matches_cons_succ e rest t i).mp hm)
        (fun j hj hmj => hfirst (j + 1) (Nat.succ_lt_succ hj)
          ((matches_cons_succ e rest t j).mpr hmj))
      rw [hrec]
      push_cast
      ring

lemma findActiveIndex_of_no_match (t : ℚ) :
    ∀ (l : List TranscriptEntry) (k : ℕ), (∀ j, ¬ entryMatches l t j) →
      findActiveIndex t l k = -1 := by
  intro l
  induction l with
  | nil => intro k _; rfl
  | cons e rest ih =>
    intro k h
    have hcond : ¬ (e.seconds ≤ t ∧ headBoundOk t rest = true) := fun hc =>
      h 0 ((matches_cons_zero e rest t).mpr hc)
    rw [findActiveIndex_cons, if_neg hcond]
    exact ih (k + 1) (fun j hmj => h (j + 1) ((matches_cons_succ e rest t j).mpr hmj))

lemma findActiveIndex_cases (t : ℚ) :
    ∀ (l : List TranscriptEntry) (k : ℕ), findActiveIndex t l k = -1
      ∨ ∃ i : ℕ, entryMatches l t i ∧ findActiveIndex t l k = (k : ℤ) + i := by
  intro l
  induction l with
  | nil => intro k; left; rfl
  | cons e rest ih =>
    intro k
    by_cases hc : e.seconds ≤ t ∧ headBoundOk t rest = true
    · right
      refine ⟨0, (matches_cons_zero e rest t).mpr hc, ?_⟩
      rw [findActiveIndex_cons, if_pos hc]
      simp
    · have hstep : findActiveIndex t (e :: rest) k = findActiveIndex t rest (k + 1) := by
        rw [findActiveIndex_cons, if_neg hc]
      rcases ih (k + 1) with h | ⟨i, hm, he⟩
      · left; rw [hstep, h]
      · right
        refine ⟨i + 1, (matches_cons_succ e rest t i).mpr hm, ?_⟩
        rw [hstep, he]
        push_cast
        ring

lemma neg_one_le_findActiveIndex (t : ℚ) (l : List TranscriptEntry) (k : ℕ) :
    -1 ≤ findActiveIndex t l k := by
  rcases findActiveIndex_cases t l k with h | ⟨i, _, he⟩
  · rw [h]
  · rw [he]
    omega

lemma exists_entryMatches (t : ℚ) :
    ∀ l : List TranscriptEntry, l ≠ [] → secOf l 0 ≤ t → ∃ i, entryMatches l t i := by
  intro l
  induction l with
  | nil => simp
  | cons e rest ih =>
    intro _ h0
    rw [secOf_zero] at h0
    cases rest with
    | nil =>
      exact ⟨0, (matches_cons_zero e [] t).mpr ⟨h0, rfl⟩⟩
    | cons e2 rs =>
      by_cases h2 : t < e2.seconds
      · exact ⟨0, (matches_cons_zero e (e2 :: rs) t).mpr
          ⟨h0, by simp [headBoundOk, h2]⟩⟩
      · have hle : secOf (e2 :: rs) 0 ≤ t := by
          rw [secOf_zero]; exact le_of_not_lt h2
        obtain ⟨i, hi⟩ := ih (by simp) hle
        exact ⟨i + 1, (matches_cons_succ e (e2 :: rs) t i).mpr hi⟩

lemma secOf_eq_getElem (l : List TranscriptEntry) (i : ℕ) (h : i < l.length) :
    secOf l i = (l[i]).seconds := by
  unfold secOf
  rw [List.getD_eq_getElem _ _ (by simpa using h)]
  simp

lemma secOf_mono_of_pairwise_le {l : List TranscriptEntry}
    (hp : List.Pairwise (fun a b => a.seconds ≤ b.seconds) l)
    {i j : ℕ} (hij : i ≤ j) (hj : j < l.length) : secOf l i ≤ secOf l j := by
  rcases eq_or_lt_of_le hij with rfl | h
  · exact le_refl _
  · have hi : i < l.length := lt_trans h hj
    have := List.pairwise_iff_getElem.mp hp i j hi hj h
    rw [secOf_eq_getElem l i hi, secOf_eq_getElem l j hj]
    exact this

lemma not_entryMatches_of_lt {l : List TranscriptEntry} {t : ℚ}
    (hp : List.Pairwise (fun a b => a.seconds ≤ b.seconds) l)
    {i j : ℕ} (hij : j < i) (hi : entryMatches l t i) : ¬ entryMatches l t j := by
  intro hj
  have hj1 : j + 1 ≤ i := hij
  have hup : t < secOf l (j + 1) := hj.2.2 (lt_of_le_of_lt hj1 hi.1)
  have hle : secOf l (j + 1) ≤ secOf l i := secOf_mono_of_pairwise_le hp hj1 hi.1
  exact absurd (lt_of_lt_of_le hup hle) (not_lt.mpr hi.2.1)

lemma entryMatches_unique {l : List TranscriptEntry} {t : ℚ}
    (hp : List.Pairwise (fun a b => a.seconds ≤ b.seconds) l)
    {i j : ℕ} (hi : entryMatches l t i) (hj : entryMatches l t j) : j = i := by
  rcases Nat.lt_trichotomy i j with h | h | h
  · exact absurd hi (not_entryMatches_of_lt hp h hj)
  · exact h.symm
  · exact absurd hj (not_entryMatches_of_lt hp h hi)

lemma computeActiveIndex_eq_of_match {l : List TranscriptEntry} {t : ℚ} {i : ℕ}
    (hp : List.Pairwise (fun a b => a.seconds ≤ b.seconds) l)
    (hm : entryMatches l t i) : computeActiveIndex l t = (i : ℤ) := by
  have hfirst : ∀ j, j < i → ¬ entryMatches l t j := fun j hj =>
    not_entryMatches_of_lt hp hj hm
  have := findActiveIndex_of_first_match t l 0 i hm hfirst
  simpa [computeActiveIndex] using this

lemma computeActiveIndex_eq_neg_one {l : List TranscriptEntry} {t : ℚ}
    (hp : List.Pairwise (fun a b => a.seconds ≤ b.seconds) l)
    (h : t < secOf l 0) : computeActiveIndex l t = -1 := by
  apply findActiveIndex_of_no_match
  intro j hm
  have h0j : secOf l 0 ≤ secOf l j :=
    secOf_mono_of_pairwise_le hp (Nat.zero_le j) hm.1
  exact absurd (le_trans h0j hm.2.1) (not_le.mpr h)

lemma transcriptEntries_isEmpty_false {l : List TranscriptEntry} (h : l ≠ []) :
    l.isEmpty = false := by
  cases l with
  | nil => exact absurd rfl h
  | cons e rest => rfl

lemma updateActiveEntry_currentEntryIndex (s : PlayerState)
    (hne : s.transcriptEntries ≠ []) :
    ((updateActiveEntry s).1).currentEntryIndex
      = computeActiveIndex s.transcriptEntries s.currentTime := by
  simp only [updateActiveEntry, transcriptEntries_isEmpty_false hne,
    Bool.false_eq_true, if_false]
  by_cases h : computeActiveIndex s.transcriptEntries s.currentTime
      = s.currentEntryIndex
  · rw [if_pos h]
    exact h.symm
  · rw [if_neg h]

lemma headBoundOk_congr (t : ℚ) {l1 l2 : List TranscriptEntry}
    (h : l1.map (fun e => e.seconds) = l2.map (fun e => e.seconds)) :
    headBoundOk t l1 = headBoundOk t l2 := by
  cases l1 with
  | nil => cases l2 with
    | nil => rfl
    | cons b bs => simp at h
  | cons a as => cases l2 with
    | nil => simp at h
    | cons b bs =>
      simp only [List.map_cons, List.cons.injEq] at h
      simp [headBoundOk, h.1]

lemma findActiveIndex_congr (t : ℚ) :
    ∀ (l1 l2 : List TranscriptEntry) (k : ℕ),
      l1.map (fun e => e.seconds) = l2.map (fun e => e.seconds) →
      findActiveIndex t l1 k = findActiveIndex t l2 k := by
  intro l1
  induction l1 with
  | nil =>
    intro l2 k h
    cases l2 with
    | nil => rfl
    | cons b bs => simp at h
  | cons a as ih =>
    intro l2 k h
    cases l2 with
    | nil => simp at h
    | cons b bs =>
      simp only [List.map_cons, List.cons.injEq] at h
      rw [findActiveIndex_cons, findActiveIndex_cons, h.1,
        headBoundOk_congr t h.2, ih bs (k + 1) h.2]

/-- The entry map applied inside `updateActiveEntry` changes only
`entryClass`, so the seconds sequence is preserved. -/
lemma enumFrom_entryClass_map_seconds (idx : ℤ) :
    ∀ (l : List TranscriptEntry) (n : ℕ),
      (((List.enumFrom n l).map fun p =>
          { p.2 with entryClass :=
              getEntryClass p.2.entryIndex (decide ((p.1 : ℤ) = idx)) }).map
        fun e => e.seconds) = l.map fun e => e.seconds := by
  intro l
  induction l with
  | nil => intro n; rfl
  | cons e rest ih =>
    intro n
    simp only [List.enumFrom, List.map_cons]
    rw [ih (n + 1)]

lemma updateActiveEntry_preserves_seconds (s : PlayerState) :
    ((updateActiveEntry s).1).transcriptEntries.map (fun e => e.seconds)
      = s.transcriptEntries.map (fun e => e.seconds) := by
  simp only [updateActiveEntry]
  by_cases he : s.transcriptEntries.isEmpty
  · rw [if_pos he]
  · rw [if_neg he]
    by_cases h : computeActiveIndex s.transcriptEntries s.currentTime
        = s.currentEntryIndex
    · rw [if_pos h]
    · rw [if_neg h]
      exact enumFrom_entryClass_map_seconds _ s.transcriptEntries 0

lemma updateActiveEntry_preserves_currentTime (s : PlayerState) :
    ((updateActiveEntry s).1).currentTime = s.currentTime := by
  simp only [updateActiveEntry]
  by_cases he : s.transcriptEntries.isEmpty
  · rw [if_pos he]
  · rw [if_neg he]
    by_cases h : computeActiveIndex s.transcriptEntries s.currentTime
        = s.currentEntryIndex
    · rw [if_pos h]
    · rw [if_neg h]

lemma updateActiveEntry_eq_self_of_empty (s : PlayerState)
    (h : s.transcriptEntries = []) : updateActiveEntry s = (s, false) := by
  simp [updateActiveEntry, h]

lemma updateActiveEntry_eq_self_of_eq (s : PlayerState)
    (h : computeActiveIndex s.transcriptEntries s.currentTime
      = s.currentEntryIndex) :
    updateActiveEntry s = (s, false) := by
  simp only [updateActiveEntry]
  by_cases he : s.transcriptEntries.isEmpty
  · rw [if_pos he]
  · rw [if_neg he, if_pos h]

lemma map_eq_nil_iff_of_map_eq {l1 l2 : List TranscriptEntry}
    (h : l1.map (fun e => e.seconds) = l2.map (fun e => e.seconds)) :
    l1 = [] ↔ l2 = [] := by
  constructor
  · intro hl; subst hl; cases l2 with
    | nil => rfl
    | cons b bs => simp at h
  · intro hl; subst hl; cases l1 with
    | nil => rfl
    | cons a as => simp at h

/-! ### Claim theorems about the synchronizer -/

/-- C1: for strictly increasing entry seconds and a nonempty entry list,
`updateActiveEntry` stores in `currentEntryIndex` exactly the index `i`
satisfying `entries[i].seconds <= currentTime < entries[i+1].seconds`
(the last upper bound being unbounded), and stores `-1` whenever
`currentTime < entries[0].seconds`.  The witness instantiates the Scenario 2
boundary cases for seconds `[0, 10]`. -/
theorem updateActiveEntry_partition (s : PlayerState)
    (hne : s.transcriptEntries ≠ [])
    (hmono : List.Pairwise (fun a b => a.seconds < b.seconds) s.transcriptEntries) :
    (∀ i : ℕ, i < s.transcriptEntries.length →
        secOf s.transcriptEntries i ≤ s.currentTime →
        (i + 1 < s.transcriptEntries.length →
          s.currentTime < secOf s.transcriptEntries (i + 1)) →
        ((updateActiveEntry s).1).currentEntryIndex = (i : ℤ))
    ∧ (s.currentTime < secOf s.transcriptEntries 0 →
        ((updateActiveEntry s).1).currentEntryIndex = -1) := by
  have hple : List.Pairwise (fun a b : TranscriptEntry => a.seconds ≤ b.seconds)
      s.transcriptEntries := hmono.imp (fun h => le_of_lt h)
  constructor
  · intro i hi hlow hup
    rw [updateActiveEntry_currentEntryIndex s hne]
    exact computeActiveIndex_eq_of_match hple ⟨hi, hlow, hup⟩
  · intro hlt
    rw [updateActiveEntry_currentEntryIndex s hne]
    exact computeActiveIndex_eq_neg_one hple hlt

/-- C1 witness: Scenario 2 on entries with seconds `[0, 10]` — playback
times 5 and 9.999 give index 0, and the boundary time 10 gives index 1. -/
theorem updateActiveEntry_partition_witness :
    ((updateActiveEntry (demoPlayerAt 5)).1).currentEntryIndex = 0
    ∧ ((updateActiveEntry (demoPlayerAt (mkRat 9999 1000))).1).currentEntryIndex = 0
    ∧ ((updateActiveEntry (demoPlayerAt 10)).1).currentEntryIndex = 1 := by
  refine ⟨?_, ?_, ?_⟩
  · have h := (updateActiveEntry_partition (demoPlayerAt 5) (by decide)
      (by decide)).1 0 (by decide) (by decide) (fun _ => by decide)
    simpa using h
  · have h := (updateActiveEntry_partition (demoPlayerAt (mkRat 9999 1000))
      (by decide) (by decide)).1 0 (by decide) (by decide) (fun _ => by decide)
    simpa using h
  · have h := (updateActiveEntry_partition (demoPlayerAt 10) (by decide)
      (by decide)).1 1 (by decide) (by decide) (fun hcon => by exact absurd hcon (by decide))
    simpa using h

/-- C4: when the computed active index equals the stored
`currentEntryIndex`, the call to `updateActiveEntry` is a no-op returning
the state unchanged with no scroll; in particular running
`updateActiveEntry` twice in a row (same `currentTime`) makes the second
call a no-op with no scroll. -/
theorem updateActiveEntry_noop (s : PlayerState) :
    (computeActiveIndex s.transcriptEntries s.currentTime = s.currentEntryIndex →
      updateActiveEntry s = (s, false))
    ∧ updateActiveEntry ((updateActiveEntry s).1) = ((updateActiveEntry s).1, false) := by
  constructor
  · exact updateActiveEntry_eq_self_of_eq s
  · by_cases hne : s.transcriptEntries = []
    · have h1 : updateActiveEntry s = (s, false) :=
        updateActiveEntry_eq_self_of_empty s hne
      rw [h1]
      exact h1
    · apply updateActiveEntry_eq_self_of_eq
      have hsec := updateActiveEntry_preserves_seconds s
      have hct := updateActiveEntry_preserves_currentTime s
      have hidx := updateActiveEntry_currentEntryIndex s hne
      rw [hct, hidx]
      simp only [computeActiveIndex]
      exact findActiveIndex_congr s.currentTime _ _ 0 hsec

/-- A state whose stored index already equals the computed one: the
Scenario 1 entries at playback time 5 with stored index 0. -/
def demoNoopPlayer : PlayerState :=
  ⟨[], true, [], none, demoEntries, false, false, 5, 60, false, true, 0,
   "10:00:00", true⟩

/-- C4 witness: on a state whose stored index equals the computed one the
call returns the state unchanged and triggers no scroll. -/
theorem updateActiveEntry_noop_witness :
    updateActiveEntry demoNoopPlayer = (demoNoopPlayer, false) :=
  (updateActiveEntry_noop demoNoopPlayer).1 (by decide)

/-- C5: for entries whose seconds are monotonically non-decreasing, the
active-index computation of `updateActiveEntry` is a function of the
playback time that, for `t` at or past the first entry, returns the unique
matching index, returns `-1` for `t` below the first entry, and is
monotonically non-decreasing in `t`. -/
theorem computeActiveIndex_partition_monotone (l : List TranscriptEntry)
    (hne : l ≠ [])
    (hmono : List.Pairwise (fun a b => a.seconds ≤ b.seconds) l) :
    (∀ t : ℚ, secOf l 0 ≤ t →
        ∃ i : ℕ, entryMatches l t i ∧ computeActiveIndex l t = (i : ℤ)
          ∧ ∀ j : ℕ, entryMatches l t j → j = i)
    ∧ (∀ t : ℚ, t < secOf l 0 → computeActiveIndex l t = -1)
    ∧ (∀ t1 t2 : ℚ, t1 ≤ t2 →
        computeActiveIndex l t1 ≤ computeActiveIndex l t2) := by
  refine ⟨?_, ?_, ?_⟩
  · intro t h0
    obtain ⟨i, hi⟩ := exists_entryMatches t l hne h0
    exact ⟨i, hi, computeActiveIndex_eq_of_match hmono hi,
      fun j hj => entryMatches_unique hmono hi hj⟩
  · intro t hlt
    exact computeActiveIndex_eq_neg_one hmono hlt
  · intro t1 t2 h12
    rcases findActiveIndex_cases t1 l 0 with h | ⟨i, hm, he⟩
    · have h1 : computeActiveIndex l t1 = -1 := h
      rw [h1]
      exact neg_one_le_findActiveIndex t2 l 0
    · have h1 : computeActiveIndex l t1 = (i : ℤ) := by
        simpa [computeActiveIndex] using he
      have hsec : secOf l i ≤ t1 := hm.2.1
      have h0t2 : secOf l 0 ≤ t2 :=
        le_trans (secOf_mono_of_pairwise_le hmono (Nat.zero_le i) hm.1)
          (le_trans hsec h12)
      obtain ⟨j, hmj⟩ := exists_entryMatches t2 l hne h0t2
      have h2 : computeActiveIndex l t2 = (j : ℤ) :=
        computeActiveIndex_eq_of_match hmono hmj
      have hle : i ≤ j := by
        by_contra hlt
        push_neg at hlt
        have hj1 : j + 1 ≤ i := hlt
        have hup : t2 < secOf l (j + 1) := hmj.2.2 (lt_of_le_of_lt hj1 hm.1)
        have hstep : secOf l (j + 1) ≤ secOf l i :=
          secOf_mono_of_pairwise_le hmono hj1 hm.1
        exact absurd (lt_of_lt_of_le hup hstep)
          (not_lt.mpr (le_trans hsec h12))
      rw [h1, h2]
      exact_mod_cast hle

/-- C5 witness: on the Scenario 1 entries the computed index is
non-decreasing from time 5 to time 10. -/
theorem computeActiveIndex_partition_monotone_witness :
    computeActiveIndex demoEntries 5 ≤ computeActiveIndex demoEntries 10 :=
  (computeActiveIndex_partition_monotone demoEntries (by decide)
    (by decide)).2.2 5 10 (by norm_num)

/-! ### Claim theorems about the parser helpers -/

lemma scanStartTime_eq_none_of_forall (l : List Char)
    (h : ∀ i, tsMatchAt (l.drop i) = none) : scanStartTime l = none := by
  induction l with
  | nil => rfl
  | cons c rest ih =>
    have h0 : tsMatchAt (c :: rest) = none := by simpa using h 0
    unfold scanStartTime
    rw [h0]
    exact ih fun i => by simpa using h (i + 1)

lemma scanStartTime_eq_some_first (l : List Char) :
    ∀ (i : ℕ) (ts : List Char), tsMatchAt (l.drop i) = some ts →
      (∀ j, j < i → tsMatchAt (l.drop j) = none) →
      scanStartTime l = some ts := by
  induction l with
  | nil =>
    intro i ts hm _
    rw [List.drop_nil] at hm
    exact absurd hm (by simp [tsMatchAt])
  | cons c rest ih =>
    intro i ts hm hfirst
    cases i with
    | zero =>
      rw [List.drop_zero] at hm
      unfold scanStartTime
      rw [hm]
    | succ i =>
      have h0 : tsMatchAt (c :: rest) = none := by
        simpa using hfirst 0 (Nat.succ_pos i)
      unfold scanStartTime
      rw [h0]
      exact ih i ts (by simpa using hm)
        fun j hj => by simpa using hfirst (j + 1) (Nat.succ_lt_succ hj)

/-- C7: `extractStartTime` returns the timestamp of the first position at
which the bracketed `HH:MM:SS` pattern matches, and `"00:00:00"` whenever
the pattern matches at no position of the input. -/
theorem extractStartTime_first_match (content : String) :
    ((∀ i, tsMatchAt (content.data.drop i) = none) →
      extractStartTime content = "00:00:00")
    ∧ (∀ (i : ℕ) (ts : List Char), tsMatchAt (content.data.drop i) = some ts →
        (∀ j, j < i → tsMatchAt (content.data.drop j) = none) →
        extractStartTime content = String.mk ts) := by
  constructor
  · intro h
    unfold extractStartTime
    rw [scanStartTime_eq_none_of_forall content.data h]
  · intro i ts hm hfirst
    unfold extractStartTime
    rw [scanStartTime_eq_some_first content.data i ts hm hfirst]

/-- C7 witness: the first bracketed timestamp of `"a[12:34:56 ok"` sits at
position 1 and is returned verbatim. -/
theorem extractStartTime_first_match_witness :
    extractStartTime "a[12:34:56 ok" = "12:34:56" := by
  have h := (extractStartTime_first_match "a[12:34:56 ok").2 1
    ['1', '2', ':', '3', '4', ':', '5', '6'] (by decide) (by decide)
  exact h.trans (by decide)

/-- C8: `getSpeakerClass` is total with exactly three possible outputs:
the bot class exactly when the lower-cased label contains
`"virtual agent"` or `"bot"`, otherwise the customer class exactly when it
contains `"customer"` or `"caller"`, otherwise the agent default. -/
theorem getSpeakerClass_classification (speaker : String) :
    (getSpeakerClass speaker = "entry-speaker speaker-bot"
      ∨ getSpeakerClass speaker = "entry-speaker speaker-customer"
      ∨ getSpeakerClass speaker = "entry-speaker speaker-agent")
    ∧ (getSpeakerClass speaker = "entry-speaker speaker-bot"
        ↔ (jsIncludes (jsToLower speaker) "virtual agent" = true
           ∨ jsIncludes (jsToLower speaker) "bot" = true))
    ∧ (getSpeakerClass speaker = "entry-speaker speaker-customer"
        ↔ (¬(jsIncludes (jsToLower speaker) "virtual agent" = true
              ∨ jsIncludes (jsToLower speaker) "bot" = true)
           ∧ (jsIncludes (jsToLower speaker) "customer" = true
              ∨ jsIncludes (jsToLower speaker) "caller" = true)))
    ∧ (getSpeakerClass speaker = "entry-speaker speaker-agent"
        ↔ (¬(jsIncludes (jsToLower speaker) "virtual agent" = true
              ∨ jsIncludes (jsToLower speaker) "bot" = true)
           ∧ ¬(jsIncludes (jsToLower speaker) "customer" = true
              ∨ jsIncludes (jsToLower speaker) "caller" = true))) := by
  cases hb1 : jsIncludes (jsToLower speaker) "virtual agent" <;>
    cases hb2 : jsIncludes (jsToLower speaker) "bot" <;>
    cases hb3 : jsIncludes (jsToLower speaker) "customer" <;>
    cases hb4 : jsIncludes (jsToLower speaker) "caller" <;>
    simp [getSpeakerClass, hb1, hb2, hb3, hb4]

/-- C8 witness: a label containing `"virtual agent"` is classified bot. -/
theorem getSpeakerClass_classification_witness :
    getSpeakerClass "Virtual Agent" = "entry-speaker speaker-bot" :=
  (getSpeakerClass_classification "Virtual Agent").2.1.mpr (Or.inl (by decide))

/-! ### Claim theorems about recording selection and document processing -/

/-- Scenario 4 audio document `call.mp3`. -/
def docCall : Document := ⟨"a1", "call.mp3", "MP3", "/dl/a1"⟩

/-- Scenario 4 audio document `call_2.mp3`. -/
def docCall2 : Document := ⟨"a2", "call_2.mp3", "MP3", "/dl/a2"⟩

/-- Scenario 4 transcript document `va_transcript_1.txt`. -/
def docVa : Document := ⟨"tv", "va_transcript_1.txt", "TXT", "/dl/tv"⟩

/-- Scenario 4 transcript document `rt_transcript_1.txt`. -/
def docRt : Document := ⟨"tr", "rt_transcript_1.txt", "TXT", "/dl/tr"⟩

/-- The Scenario 4 document set. -/
def scenDocs : List Document := [docCall, docCall2, docVa, docRt]

/-- A freshly created component state holding a given document list. -/
def initialPlayer (docs : List Document) : PlayerState :=
  ⟨docs, true, [], none, [], true, true, 0, 0, false, true, -1, "", false⟩

/-- C9: for every state and recording id, `selectRecording` resets the
playback time to 0 and the active index to -1 and empties the displayed
transcript entries, all in its synchronous part, i.e. before any transcript
for the new recording can arrive — so immediately after the switch no entry
of the previously selected recording is observable. -/
theorem selectRecording_resets (s : PlayerState) (recordingId : String) :
    ((selectRecording s recordingId).1).currentTime = 0
    ∧ ((selectRecording s recordingId).1).currentEntryIndex = -1
    ∧ ((selectRecording s recordingId).1).transcriptEntries = []
    ∧ ((selectRecording s recordingId).1).selectedRecordingId = some recordingId := by
  simp only [selectRecording]
  split <;> split <;> simp

lemma selectRecording_preserves (s : PlayerState) (recordingId : String) :
    ((selectRecording s recordingId).1).documents = s.documents
    ∧ ((selectRecording s recordingId).1).documentsProcessed = s.documentsProcessed := by
  simp only [selectRecording]
  split <;> split <;> simp <;> split <;> simp

lemma processDocuments_preserves (s : PlayerState) :
    ((processDocuments s).1).documents = s.documents
    ∧ ((processDocuments s).1).documentsProcessed = s.documentsProcessed := by
  simp only [processDocuments]
  split
  · simp
  · split
    · simp
    · exact selectRecording_preserves _ _

/-- C10: the `documents` setter normalizes null to the empty list, and once
`_documentsProcessed` is set, a later assignment is pure storage: it
replaces `documents` and leaves every other part of the state — recordings,
pairings, selection — untouched, dispatching no fetch; a first assignment
permanently sets the processed flag. -/
theorem documents_setter_processes_once (s : PlayerState)
    (value : Option (List Document)) :
    ((setDocuments s none).1).documents = []
    ∧ (s.documentsProcessed = true →
        setDocuments s value = ({ s with documents := value.getD [] }, none))
    ∧ (s.documentsProcessed = false →
        ((setDocuments s value).1).documentsProcessed = true) := by
  refine ⟨?_, ?_, ?_⟩
  · simp only [setDocuments]
    by_cases h : s.documentsProcessed
    · simp [h]
    · simp only [h, if_false]
      have := (processDocuments_preserves
        { s with documents := (none : Option (List Document)).getD [],
                 documentsProcessed := true }).1
      simpa using this
  · intro h
    simp [setDocuments, h]
  · intro h
    simp only [setDocuments, h, if_false]
    have := (processDocuments_preserves
      { s with documents := value.getD [], documentsProcessed := true }).2
    simpa using this

/-- C10 witness: on an already-processed state, re-assigning the documents
only replaces the stored list and performs no processing. -/
theorem documents_setter_processes_once_witness :
    setDocuments (initialPlayer [docCall]) (some scenDocs)
      = ({ initialPlayer [docCall] with documents := scenDocs }, none) :=
  (documents_setter_processes_once (initialPlayer [docCall])
    (some scenDocs)).2.1 (by decide)

lemma buildRecording_audioTitle (va rt : Option Document) (d : Document) :
    (buildRecording va rt d).audioTitle = d.title := by
  by_cases h : jsIncludes (jsToLower d.title) "_2" = true
  · simp [buildRecording, h]
  · cases va <;> simp [buildRecording, h]

lemma buildRecording_id (va rt : Option Document) (d : Document) :
    (buildRecording va rt d).id = d.documentId := by
  by_cases h : jsIncludes (jsToLower d.title) "_2" = true
  · simp [buildRecording, h]
  · cases va <;> simp [buildRecording, h]

lemma buildRecording_transcriptDoc (va rt : Option Document) (d : Document) :
    (buildRecording va rt d).transcriptDoc
      = if jsIncludes (jsToLower d.title) "_2" = true then rt else va := by
  by_cases h : jsIncludes (jsToLower d.title) "_2" = true
  · simp [buildRecording, h]
  · cases va <;> simp [buildRecording, h]

/-- C6: each audio document becomes a listed recording (so unmatched audio
stays playable); a recording whose title contains the `"_2"` marker is
paired with the scanned `rt_` transcript and every other recording with the
scanned `va_` transcript (which is `none` when no such transcript exists,
leaving the recording without a transcript); since the scan designates at
most one `va_` and at most one `rt_` transcript, at most one primary and at
most one secondary pairing arise.  On the Scenario 4 titles, `call.mp3`
pairs with `va_transcript_1.txt` and `call_2.mp3` with
`rt_transcript_1.txt`, through the whole of `processDocuments`. -/
theorem processDocuments_pairing :
    (∀ (docs : List Document) (rec : Recording), rec ∈ buildRecordings docs →
        rec.transcriptDoc =
          if jsIncludes (jsToLower rec.audioTitle) "_2" = true
          then (scanTranscripts docs none none).2
          else (scanTranscripts docs none none).1)
    ∧ (∀ docs : List Document,
        (buildRecordings docs).map (fun r => r.id)
          = (docs.filter isAudioRecordingDoc).map (fun d => d.documentId))
    ∧ (((processDocuments (initialPlayer scenDocs)).1).recordings.map
          (fun r => (r.audioTitle, r.transcriptDoc.map (fun d => d.title)))
        = [("call.mp3", some "va_transcript_1.txt"),
           ("call_2.mp3", some "rt_transcript_1.txt")]) := by
  refine ⟨?_, ?_, ?_⟩
  · intro docs rec hmem
    unfold buildRecordings at hmem
    obtain ⟨d, _, rfl⟩ := List.mem_map.mp hmem
    rw [buildRecording_audioTitle, buildRecording_transcriptDoc]
  · intro docs
    unfold buildRecordings
    rw [List.map_map]
    congr 1
    funext d
    exact buildRecording_id _ _ d
  · decide

/-- C6 witness: the `call_2.mp3` recording built from the Scenario 4
documents carries the `rt_` transcript. -/
theorem processDocuments_pairing_witness :
    (buildRecording (some docVa) (some docRt) docCall2).transcriptDoc
      = some docRt := by
  have h := processDocuments_pairing.1 scenDocs
    (buildRecording (some docVa) (some docRt) docCall2) (by decide)
  exact h.trans (by decide)

/-! ### Claim theorems about seeking (corrected claim C3) -/

/-- A state with duration 10 whose transcript has an entry at 15 seconds,
past the end of the audio. -/
def seekPlayer : PlayerState :=
  ⟨[], true, [], none,
   [demoEntryA,
    ⟨"10:00:15", 15, "Customer", "Late", 1, "0:15", "transcript-entry",
     "entry-speaker speaker-customer"⟩],
   false, false, 0, 10, true, true, -1, "", true⟩

/-- C3 counterexample: clicking the transcript entry with `seconds = 15` on
a recording of duration 10 writes 15 to the time source, not the clamped
value `clamp(15, 0, 10) = 10` the claim requires. -/
theorem transcript_click_not_clamped :
    seekPlayer.duration = 10
    ∧ (15 : ℚ) ∈ seekPlayer.transcriptEntries.map (fun e => e.seconds)
    ∧ (handleTranscriptClick seekPlayer (some 15)).2 = some 15
    ∧ max 0 (min seekPlayer.duration 15) = 10
    ∧ (15 : ℚ) ≠ 10 := by
  refine ⟨rfl, by decide, rfl, by norm_num [seekPlayer], by norm_num⟩

/-- C3 amended: a progress-bar click at computed fraction
`(clientX - left) / width` writes `clamp(fraction * duration, 0, duration)`
— in particular the written value always lies in `[0, duration]` — while a
transcript-entry click writes the raw `seconds` value of the entry with no
clamping by the component. -/
theorem seek_requests_spec (duration clientX rectLeft rectWidth : ℚ)
    (s : PlayerState) (seconds : ℚ) (hdur : 0 ≤ duration) :
    handleProgressClick duration clientX rectLeft rectWidth
        = max 0 (min duration ((clientX - rectLeft) / rectWidth * duration))
    ∧ 0 ≤ handleProgressClick duration clientX rectLeft rectWidth
    ∧ handleProgressClick duration clientX rectLeft rectWidth ≤ duration
    ∧ (s.audioPresent = true →
        (handleTranscriptClick s (some seconds)).2 = some seconds) := by
  refine ⟨rfl, le_max_left 0 _, ?_, ?_⟩
  · apply max_le hdur
    exact min_le_left _ _
  · intro h
    simp [handleTranscriptClick, h]

/-- C3 witness: a click far past the right edge of the progress bar is
clamped into `[0, 10]`. -/
theorem seek_requests_spec_witness :
    0 ≤ handleProgressClick 10 200 0 40
    ∧ handleProgressClick 10 200 0 40 ≤ 10 :=
  ⟨(seek_requests_spec 10 200 0 40 seekPlayer 15 (by norm_num)).2.1,
   (seek_requests_spec 10 200 0 40 seekPlayer 15 (by norm_num)).2.2.1⟩

/-! ### The stale-fetch race (corrected claim C2) -/

/-- A fetch environment in which the `va_` transcript document parses to an
entry reading "from A" and the `rt_` one to an entry reading "from B". -/
def raceEnv : FetchEnv :=
  ⟨fun d =>
      if d = "tv" then some "[10:00:00   Agent]   from A"
      else if d = "tr" then some "[11:00:00   Agent]   from B"
      else none,
   fun content _ =>
      if content = "[10:00:00   Agent]   from A"
      then [⟨"10:00:00", 0, "Agent", "from A", 0⟩]
      else [⟨"11:00:00", 0, "Agent", "from B", 0⟩]⟩

/-- The system right after the Scenario 4 documents are processed: the
first recording (`call.mp3`, id `a1`) is auto-selected and its transcript
fetch (document `tv`) is in flight. -/
def raceStart : SystemState :=
  ⟨(processDocuments (initialPlayer scenDocs)).1,
   ((processDocuments (initialPlayer scenDocs)).2).toList⟩

/-- The trace in which the user switches to recording `a2` while the fetch
for `tv` is still outstanding, and the stale `tv` response arrives last. -/
def raceFinal : SystemState :=
  runEvents raceEnv raceStart
    [PlayerEvent.select "a2", PlayerEvent.resolve "tr", PlayerEvent.resolve "tv"]

/-- C2 counterexample: after switching to recording `a2` mid-fetch, the
stale response for the superseded recording is applied when it resolves —
the final state has `a2` selected (whose transcript parses to "from B")
while the displayed entries read "from A", the superseded transcript. -/
theorem stale_fetch_not_discarded :
    raceFinal.player.selectedRecordingId = some "a2"
    ∧ ((raceFinal.player.recordings.find? fun r => r.id == "a2").bind
        fun r => r.transcriptDoc.map fun d => d.documentId) = some "tr"
    ∧ raceFinal.player.transcriptEntries.map (fun e => e.text) = ["from A"]
    ∧ ((raceEnv.parse "[11:00:00   Agent]   from B" "11:00:00").map
        fun e => e.text) = ["from B"]
    ∧ (["from A"] : List String) ≠ ["from B"] := by
  refine ⟨by decide, by decide, by decide, by decide, by decide⟩

/-- C2 amended: `loadTranscript` carries no stale-response guard — the
continuation of a resolving fetch overwrites `transcriptEntries` with its
own parse result unconditionally, leaving the selection untouched, so the
displayed entries are those of the most recently resolved fetch; they match
the most recently selected recording whenever that recording's fetch
resolves last, as in the in-dispatch-order trace of the final conjunct. -/
theorem resolved_fetch_overwrites (env : FetchEnv) (sys : SystemState)
    (d content : String) (hpend : d ∈ sys.pending)
    (hfetch : env.fetch d = some content) (hne : content ≠ "") :
    (stepEvent env sys (PlayerEvent.resolve d)).player.transcriptEntries
        = (env.parse content (extractStartTime content)).map displayEntry
    ∧ (stepEvent env sys (PlayerEvent.resolve d)).player.selectedRecordingId
        = sys.player.selectedRecordingId
    ∧ ((runEvents raceEnv raceStart
          [PlayerEvent.select "a2", PlayerEvent.resolve "tv",
           PlayerEvent.resolve "tr"]).player.transcriptEntries.map
        fun e => e.text) = ["from B"] := by
  refine ⟨?_, ?_, by decide⟩
  · simp only [stepEvent, if_pos hpend, resolveTranscriptFetch, hfetch, if_neg hne]
  · simp only [stepEvent, if_pos hpend, resolveTranscriptFetch, hfetch, if_neg hne]

/-- C2 amended witness: resolving the in-flight fetch of `raceStart`
overwrites the entries with that fetch's own parse result. -/
theorem resolved_fetch_overwrites_witness :
    (stepEvent raceEnv raceStart (PlayerEvent.resolve "tv")).player.transcriptEntries
      = (raceEnv.parse "[10:00:00   Agent]   from A"
          (extractStartTime "[10:00:00   Agent]   from A")).map displayEntry :=
  (resolved_fetch_overwrites raceEnv raceStart "tv"
    "[10:00:00   Agent]   from A" (by decide) (by decide) (by decide)).1

end CallTranscriptPlayer
